import Mathlib

/-!
Shallow embedding of the shopping-assistant search/filter core
(`agent/tools.py`): the tokenizer `_tokenize`, the scoring search
`search_catalog`, the constraint extractor `parse_constraints`, and the
hard-constraint filter `filter_results`.

Python floats are modelled as `ℚ` (the program only ever adds halves,
casts integers and compares, so no floating-point rounding is involved).
Python dictionaries with `.get` defaults are modelled as structures of
`Option` typed fields.  the Python stable `list.sort(key=..., reverse=True)`
is modelled by the stable Mathlib function `List.insertionSort` over the total
preorder induced by the key `(score, rating, -price)`; a stable sort with
respect to a total preorder has a unique result, so this is extensionally
the same list Python produces.
-/

namespace Shop

/-! ## Tokenizer (`_tokenize`, tools.py lines 19–28) -/

/-- ASCII lower-casing of a string, character by character, as
`str.lower()` does on the ASCII inputs this program handles. -/
def pyLower (s : String) : String := String.mk (s.data.map Char.toLower)

/-- A character kept by the token regex `[a-z0-9]+` (after lower-casing). -/
def isTokChar (c : Char) : Bool := ('a' ≤ c && c ≤ 'z') || ('0' ≤ c && c ≤ '9')

/-- Splits a list of characters into the maximal runs of token characters,
discarding everything else, i.e. `re.findall(r"[a-z0-9]+", text)`.
`acc` holds the current run, reversed. -/
def runsAux : List Char → List Char → List (List Char)
  | [], acc => if acc.isEmpty then [] else [acc.reverse]
  | c :: cs, acc =>
    if isTokChar c then runsAux cs (c :: acc)
    else if acc.isEmpty then runsAux cs [] else acc.reverse :: runsAux cs []

/-- `_tokenize`: lower-case, then extract maximal alphanumeric runs. -/
def tokenize (s : String) : List String :=
  (runsAux (pyLower s).data []).map String.mk

/-! ## Lexicographic order on strings

Python compares strings lexicographically by code point; `sorted(...)`
uses that order.  We use an executable code-point lexicographic `≤`. -/

/-- Lexicographic `≤` on character lists, by code point, with a proper
prefix ordered first — exactly the Python string `<=`. -/
def lexLeB : List Char → List Char → Bool
  | [], _ => true
  | _ :: _, [] => false
  | a :: as, b :: bs => if a < b then true else if b < a then false else lexLeB as bs

/-- Lexicographic `≤` on strings (the Python string order). -/
def strle (a b : String) : Prop := lexLeB a.data b.data = true

instance : DecidableRel strle := fun a b => by unfold strle; infer_instance

theorem lexLeB_total : ∀ a b, lexLeB a b = true ∨ lexLeB b a = true := by
  intro a
  induction a with
  | nil => intro b; exact Or.inl rfl
  | cons x xs ih =>
    intro b
    cases b with
    | nil => exact Or.inr rfl
    | cons y ys =>
      simp only [lexLeB]
      rcases lt_trichotomy x y with h | h | h
      · left; simp [h, not_lt_of_gt h]
      · subst h; simp only [lt_irrefl, if_false]; exact ih ys
      · right; simp [h, not_lt_of_gt h]

theorem lexLeB_trans :
    ∀ a b c, lexLeB a b = true → lexLeB b c = true → lexLeB a c = true := by
  intro a
  induction a with
  | nil => intro b c _ _; rfl
  | cons x xs ih =>
    intro b c hab hbc
    cases b with
    | nil => simp [lexLeB] at hab
    | cons y ys =>
      cases c with
      | nil => simp [lexLeB] at hbc
      | cons z zs =>
        simp only [lexLeB] at hab hbc ⊢
        rcases lt_trichotomy x y with h1 | h1 | h1
        · rcases lt_trichotomy y z with h2 | h2 | h2
          · simp [lt_trans h1 h2, not_lt_of_gt (lt_trans h1 h2)]
          · subst h2; simp [h1, not_lt_of_gt h1]
          · simp [h2, not_lt_of_gt h2] at hbc
        · subst h1
          rcases lt_trichotomy x z with h2 | h2 | h2
          · simp [h2, not_lt_of_gt h2]
          · subst h2
            simp only [lt_irrefl, if_false] at hab hbc ⊢
            exact ih _ _ hab hbc
          · simp [h2, not_lt_of_gt h2] at hbc
        · simp [h1, not_lt_of_gt h1] at hab

instance : IsTotal String strle := ⟨fun a b => lexLeB_total a.data b.data⟩

instance : IsTrans String strle := ⟨fun a b c => lexLeB_trans a.data b.data c.data⟩

/-- `sorted(set(xs))` for a list of strings: deduplicate, then sort
lexicographically (a stable sort of distinct elements, so simply the
sorted list of the distinct elements of `xs`). -/
def sortedDedup (xs : List String) : List String :=
  List.insertionSort strle xs.dedup

/-! ## Data model (tools.py lines 32–43) -/

/-- A catalog item.  The source reads it as a JSON dictionary via
`item.get(...)` with defaults, so every field the core logic touches is
optional here; the `.get` default is applied at each use site, as in the
source.  (`num_reviews` is display-only and never read by the core.) -/
structure Item where
  title : Option String := none
  description : Option String := none
  brand : Option String := none
  category : Option String := none
  style_tags : Option (List String) := none
  colors : Option (List String) := none
  price_usd : Option ℚ := none
  rating : Option ℚ := none
deriving DecidableEq

/-- `SearchResult` dataclass. -/
structure SearchResult where
  item : Item
  score : ℚ
  matched_terms : List String
deriving DecidableEq

/-- `Constraints` dataclass: every field defaults to `None`. -/
structure Constraints where
  budget_max : Option ℚ := none
  colors : Option (List String) := none
  categories : Option (List String) := none
deriving DecidableEq

/-! ## Scoring (`search_catalog`, tools.py lines 183–246) -/

/-- The searchable blob of an item: title, description, brand, category,
style tags and colors joined with spaces (lines 209–217).  `.get`
defaults: `""` for the text fields, `[]` for the list fields
(`x or []` turns a JSON `null` into `[]` as well). -/
def fieldsBlob (it : Item) : String :=
  String.intercalate " "
    ([it.title.getD "", it.description.getD "", it.brand.getD "", it.category.getD ""]
      ++ it.style_tags.getD [] ++ it.colors.getD [])

/-- `h_tokens`: the searchable token set (line 218).  The source
lower-cases the blob and tokenizes it; `tokenize` lower-cases anyway, so
the double lower-casing is dropped.  Kept as a list; only membership is
ever used, as with the Python `set`. -/
def hTokensList (it : Item) : List String := tokenize (fieldsBlob it)

/-- `matched`: the query tokens (in order, with multiplicity) that occur
in the searchable token set (line 221). -/
def matchedTokens (q : String) (it : Item) : List String :=
  (tokenize q).filter (fun t => decide (t ∈ hTokensList it))

/-- `title_tokens` (line 228). -/
def titleTokens (it : Item) : List String := tokenize (it.title.getD "")

/-- `title_matches = sum(1 for t in q_tokens if t in title_tokens)`
(line 229): counts query-token occurrences, with multiplicity. -/
def titleMatchCount (q : String) (it : Item) : Nat :=
  ((tokenize q).filter (fun t => decide (t ∈ titleTokens it))).length

/-- Scoring of one catalog item (loop body, lines 208–237): `None` when no
query token matches (the item is skipped), otherwise the `SearchResult`
with `score = float(len(set(matched))) + 0.5 * float(title_matches)` and
`matched_terms = sorted(set(matched))`.  The score is written over the
common denominator 2 (`mkRat`); `halfScore_eq` below restates it in the
source form `len(set(matched)) + 0.5 * title_matches`. -/
def scoreOf (q : String) (it : Item) : Option SearchResult :=
  if (matchedTokens q it).isEmpty then none
  else
    some { item := it
           score := mkRat (2 * ((matchedTokens q it).dedup.length : Int) + titleMatchCount q it) 2
           matched_terms := sortedDedup (matchedTokens q it) }

/-- `rating = r.item.get("rating", 0)` (line 241). -/
def ratingKey (it : Item) : ℚ := it.rating.getD 0

/-- `price = r.item.get("price_usd", 10**9)` (lines 159 and 242). -/
def priceKey (it : Item) : ℚ := it.price_usd.getD 1000000000

/-- The total preorder in which the Python
`results.sort(key=lambda r: (score, rating, -price), reverse=True)` lists
its output: `a` may precede `b` iff the key of `a` is lexicographically no
smaller — higher score, then higher rating, then lower price. -/
def sortRel (a b : SearchResult) : Prop :=
  b.score < a.score ∨
    (a.score = b.score ∧
      (ratingKey b.item < ratingKey a.item ∨
        (ratingKey a.item = ratingKey b.item ∧ priceKey a.item ≤ priceKey b.item)))

instance : DecidableRel sortRel := fun a b => by unfold sortRel; infer_instance

instance : IsTotal SearchResult sortRel := by
  constructor
  intro a b
  unfold sortRel
  rcases lt_trichotomy b.score a.score with h | h | h
  · exact Or.inl (Or.inl h)
  · rcases lt_trichotomy (ratingKey b.item) (ratingKey a.item) with h2 | h2 | h2
    · exact Or.inl (Or.inr ⟨h.symm, Or.inl h2⟩)
    · rcases le_total (priceKey a.item) (priceKey b.item) with h3 | h3
      · exact Or.inl (Or.inr ⟨h.symm, Or.inr ⟨h2.symm, h3⟩⟩)
      · exact Or.inr (Or.inr ⟨h, Or.inr ⟨h2, h3⟩⟩)
    · exact Or.inr (Or.inr ⟨h, Or.inl h2⟩)
  · exact Or.inr (Or.inl h)

instance : IsTrans SearchResult sortRel := by
  constructor
  intro a b c hab hbc
  unfold sortRel at hab hbc ⊢
  rcases hab with h1 | ⟨he1, h1⟩
  · rcases hbc with h2 | ⟨he2, _⟩
    · exact Or.inl (lt_trans h2 h1)
    · exact Or.inl (he2 ▸ h1)
  · rcases hbc with h2 | ⟨he2, h2⟩
    · exact Or.inl (he1 ▸ h2)
    · refine Or.inr ⟨he1.trans he2, ?_⟩
      rcases h1 with h1 | ⟨hr1, h1⟩
      · rcases h2 with h2 | ⟨hr2, _⟩
        · exact Or.inl (lt_trans h2 h1)
        · exact Or.inl (hr2 ▸ h1)
      · rcases h2 with h2 | ⟨hr2, h2⟩
        · exact Or.inl (hr1 ▸ h2)
        · exact Or.inr ⟨hr1.trans hr2, le_trans h1 h2⟩

/-- Python list slicing `xs[:k]` for an arbitrary integer `k`: the first
`k` elements when `k ≥ 0`, everything but the last `|k|` elements when
`k < 0` (clamped at the empty list). -/
def pySlice (k : Int) (xs : List SearchResult) : List SearchResult :=
  if 0 ≤ k then xs.take k.toNat else xs.take ((xs.length : Int) + k).toNat

/-- The scored results before sorting (the loop of lines 206–237). -/
def scoredList (q : String) (catalog : List Item) : List SearchResult :=
  catalog.filterMap (scoreOf q)

/-- `search_catalog` (lines 183–246) on a supplied catalog: empty query
tokenization short-circuits to `[]`; otherwise score every item, sort by
score desc / rating desc / price asc, and truncate with `results[:top_k]`.
(The `catalog=None → load_catalog()` branch is the file read; claims
quantify over the supplied catalog.) -/
def search_catalog (q : String) (catalog : List Item) (top_k : Int) : List SearchResult :=
  if (tokenize q).isEmpty then []
  else pySlice top_k (List.insertionSort sortRel (scoredList q catalog))

/-! ## Constraint parser (`parse_constraints`, tools.py lines 46–139) -/

/-- the Python substring test `needle in hay` on character lists. -/
def isSubstr (needle : List Char) : List Char → Bool
  | [] => needle.isEmpty
  | c :: cs => needle.isPrefixOf (c :: cs) || isSubstr needle cs

/-- `needle in hay` on strings. -/
def strContains (hay needle : String) : Bool := isSubstr needle.data hay.data

/-- A character matched by `\d`. -/
def isDigitCh (c : Char) : Bool := '0' ≤ c && c ≤ '9'

/-- A character matched by `\s` (ASCII whitespace). -/
def isWSCh (c : Char) : Bool :=
  c = ' ' || c = '\t' || c = '\n' || c = '\r' || c = Char.ofNat 11 || c = Char.ofNat 12

/-- Greedy `\s*`. -/
def skipWS : List Char → List Char
  | c :: cs => if isWSCh c then skipWS cs else c :: cs
  | [] => []

/-- Greedy `\$?`. -/
def skipDollar : List Char → List Char
  | '$' :: cs => cs
  | cs => cs

/-- Numeric value of a digit run, as the `re`-matched `\d+` text read by
`float(...)` (the values here are integers). -/
def natOfDigits (ds : List Char) : Nat :=
  ds.foldl (fun acc c => 10 * acc + (c.toNat - 48)) 0

/-- Match of `(under|below|less than)\s*\$?\s*(\d+)` anchored at the head
of `cs`, returning the number.  The three literal alternatives are
mutually exclusive as prefixes and the character classes `\s`, `\$`, `\d`
are disjoint, so the greedy left-to-right reading needs no backtracking. -/
def pat1At (cs : List Char) : Option Nat :=
  let after (rest : List Char) : Option Nat :=
    let r := skipWS (skipDollar (skipWS rest))
    let ds := r.takeWhile isDigitCh
    if ds.isEmpty then none else some (natOfDigits ds)
  if ("under".data).isPrefixOf cs then after (cs.drop 5)
  else if ("below".data).isPrefixOf cs then after (cs.drop 5)
  else if ("less than".data).isPrefixOf cs then after (cs.drop 9)
  else none

/-- `re.search` of the first budget pattern: the match at the leftmost
position where one exists; the extracted number is the last digit run of
the matched text, which is the `\d+` group. -/
def searchPat1 : List Char → Option Nat
  | [] => none
  | c :: cs =>
    match pat1At (c :: cs) with
    | some n => some n
    | none => searchPat1 cs

/-- Match of `\$?\s*(\d+)\s*(max|maximum|or less)` anchored at the head of
`cs`, returning the number.  The alternative `max` is tried before
`maximum` and matches whenever `maximum` would, with the same `\d+`
group, so a `max`-prefix test suffices. -/
def pat2At (cs : List Char) : Option Nat :=
  let r := skipWS (skipDollar cs)
  let ds := r.takeWhile isDigitCh
  if ds.isEmpty then none
  else
    let rest := skipWS (r.drop ds.length)
    if ("max".data).isPrefixOf rest || ("or less".data).isPrefixOf rest then
      some (natOfDigits ds)
    else none

/-- `re.search` of the second budget pattern. -/
def searchPat2 : List Char → Option Nat
  | [] => none
  | c :: cs =>
    match pat2At (c :: cs) with
    | some n => some n
    | none => searchPat2 cs

/-- Budget extraction (lines 57–72): the two patterns are tried in list
order on the lower-cased query and the first to match wins. -/
def parseBudget (ql : String) : Option ℚ :=
  match searchPat1 ql.data with
  | some n => some (n : ℚ)
  | none =>
    match searchPat2 ql.data with
    | some n => some (n : ℚ)
    | none => none

/-- `known_colors` (lines 75–97), in source order. -/
def knownColors : List String :=
  ["black", "white", "ivory", "cream", "beige", "camel", "brown", "gray", "grey",
   "charcoal", "navy", "blue", "light blue", "green", "emerald", "burgundy", "red",
   "pink", "purple", "silver", "gold"]

/-- `category_map` (lines 109–129), in source (insertion) order. -/
def categoryMap : List (String × String) :=
  [("dress", "dress"), ("gown", "dress"), ("slip dress", "dress"),
   ("heels", "shoes"), ("boots", "shoes"), ("shoes", "shoes"), ("sandals", "shoes"),
   ("clutch", "bag"), ("bag", "bag"), ("purse", "bag"),
   ("coat", "outerwear"), ("jacket", "outerwear"),
   ("blouse", "top"), ("top", "top"),
   ("trousers", "bottom"), ("pants", "bottom"),
   ("earrings", "accessory"), ("tights", "accessory"), ("accessories", "accessory")]

/-- Ordering used by `sorted(category_map.keys(), key=len, reverse=True)`:
longer key first; the Python sort is stable, so insertion order breaks
ties, which `insertionSort` reproduces. -/
def keyLenGe (a b : String × String) : Prop := b.1.length ≤ a.1.length

instance : DecidableRel keyLenGe := fun a b => by unfold keyLenGe; infer_instance

instance : IsTotal (String × String) keyLenGe :=
  ⟨fun a b => le_total b.1.length a.1.length⟩

instance : IsTrans (String × String) keyLenGe :=
  ⟨fun _ _ _ h1 h2 => le_trans h2 h1⟩

/-- `parse_constraints` (lines 46–139): lower-case the query, extract the
budget, collect substring-matched colors and (longest-key-first)
categories, each returned as `sorted(set(...))` or unset if none hit. -/
def parse_constraints (query : String) : Constraints :=
  let q := pyLower query
  let foundColors := knownColors.filter (fun c => strContains q c)
  let foundCats :=
    ((List.insertionSort keyLenGe categoryMap).filter
      (fun kv => strContains q kv.1)).map Prod.snd
  { budget_max := parseBudget q
    colors := if foundColors.isEmpty then none else some (sortedDedup foundColors)
    categories := if foundCats.isEmpty then none else some (sortedDedup foundCats) }

/-! ## Constraint filter (`filter_results`, tools.py lines 142–179) -/

/-- Budget check (lines 158–161): when `budget_max` is set, the item is
dropped iff `float(item.get("price_usd", 10**9)) > budget_max`; kept iff
not so. -/
def budgetOk (c : Constraints) (it : Item) : Bool :=
  match c.budget_max with
  | none => true
  | some b => decide (¬ b < priceKey it)

/-- Category check (lines 164–166): guarded by Python truthiness
(`if constraints.categories:`), so `None` and the empty list both skip
the check; otherwise keep iff `item.get("category")` (which is `None`
when absent, equal to no string) is in the list, case-sensitively. -/
def catOk (c : Constraints) (it : Item) : Bool :=
  match c.categories with
  | none => true
  | some [] => true
  | some cats =>
    match it.category with
    | some cat => decide (cat ∈ cats)
    | none => false

/-- Color check (lines 169–175): guarded by Python truthiness; otherwise
keep iff the lower-cased item colors (`item.get("colors") or []`) and the
lower-cased wanted colors are not disjoint.  The Python `set`s only ever
feed a disjointness test, so lists with membership are equivalent. -/
def colorOk (c : Constraints) (it : Item) : Bool :=
  match c.colors with
  | none => true
  | some [] => true
  | some want =>
    decide (∃ x ∈ (it.colors.getD []).map pyLower, x ∈ want.map pyLower)

/-- A result survives the loop body (lines 154–177) iff no `continue`
fires: all three checks pass. -/
def passes (c : Constraints) (r : SearchResult) : Bool :=
  budgetOk c r.item && catOk c r.item && colorOk c r.item

/-- `filter_results` (lines 142–179): the results whose items pass every
set constraint, in their original order. -/
def filter_results (results : List SearchResult) (c : Constraints) : List SearchResult :=
  results.filter (passes c)

/-! ## Spec-side definitions

These follow the words of the specification, not the source, and exist to be
compared against the source-derived definitions above. -/

/-- The score formula as the specification words it: "(count of distinct
query tokens found anywhere in the item) + 0.5 × (count of distinct query
tokens found specifically in the title)".  Both counts are of *distinct*
tokens. -/
def claimScore (q : String) (it : Item) : ℚ :=
  ((((tokenize q).toFinset.filter (fun t => t ∈ hTokensList it)).card : ℚ)) +
    (1 / 2) * ((((tokenize q).toFinset.filter (fun t => t ∈ titleTokens it)).card : ℚ))

/-- The filter-survival condition as the specification words it: price not
over the budget when a budget is set, category equal (case-sensitively) to
a requested category when categories are set, and some item color shared
(case-insensitively) with the requested colors when colors are set. -/
def specPass (c : Constraints) (r : SearchResult) : Prop :=
  (∀ b p, c.budget_max = some b → r.item.price_usd = some p → p ≤ b) ∧
  (∀ cats, c.categories = some cats → ∃ e ∈ cats, r.item.category = some e) ∧
  (∀ cols, c.colors = some cols →
    ∃ x ∈ (r.item.colors.getD []).map pyLower, x ∈ cols.map pyLower)

/-! ## Concrete values used in counterexamples and witnesses -/

/-- A well-formed catalog item. -/
def itemRed : Item :=
  { title := some "Red Dress", description := some "A long red dress",
    brand := some "Acme", category := some "dress", style_tags := some ["evening"],
    colors := some ["Red"], price_usd := some 50, rating := some 4 }

/-- A second item, cheaper and better rated than `itemRed`. -/
def itemBlue : Item :=
  { title := some "Blue Dress", category := some "dress", colors := some ["blue"],
    price_usd := some 30, rating := some 5 }

/-- An item with no colors field and no price. -/
def itemBare : Item := { title := some "Plain Dress" }

/-- A result wrapping `itemRed`. -/
def rRed : SearchResult := { item := itemRed, score := 1, matched_terms := ["red"] }

/-- A result wrapping `itemBare`. -/
def rBare : SearchResult := { item := itemBare, score := 1, matched_terms := ["dress"] }

/-- Constraints with every field set and non-empty. -/
def cWit : Constraints :=
  { budget_max := some 100, colors := some ["red"], categories := some ["dress"] }

/-- The result `search_catalog "dress" [itemRed] _` produces for
`itemRed`: one distinct match plus one title match. -/
def itemRedResult : SearchResult :=
  { item := itemRed, score := mkRat 3 2, matched_terms := ["dress"] }

/-! ## Helper lemmas -/

theorem pySlice_sublist (k : Int) (xs : List SearchResult) :
    (pySlice k xs).Sublist xs := by
  rw [pySlice]; split <;> exact List.take_sublist _ _

theorem pySlice_nil (k : Int) : pySlice k [] = [] := by
  rw [pySlice]; split <;> simp

theorem sortedDedup_sorted (xs : List String) : (sortedDedup xs).Sorted strle :=
  List.sorted_insertionSort strle xs.dedup

theorem sortedDedup_nodup (xs : List String) : (sortedDedup xs).Nodup :=
  ((List.perm_insertionSort strle xs.dedup).nodup_iff).mpr (List.nodup_dedup xs)

theorem mem_sortedDedup {a : String} {xs : List String} :
    a ∈ sortedDedup xs ↔ a ∈ xs := by
  rw [sortedDedup, (List.perm_insertionSort strle xs.dedup).mem_iff]
  exact List.mem_dedup

theorem sortedDedup_ne_nil {xs : List String} (h : xs ≠ []) : sortedDedup xs ≠ [] := by
  obtain ⟨x, hx⟩ := List.exists_mem_of_ne_nil xs h
  exact List.ne_nil_of_mem (mem_sortedDedup.mpr hx)

theorem scoreOf_some {q : String} {it : Item} {r : SearchResult}
    (h : scoreOf q it = some r) :
    matchedTokens q it ≠ [] ∧ r.item = it ∧
    r.matched_terms = sortedDedup (matchedTokens q it) ∧
    r.score =
      mkRat (2 * ((matchedTokens q it).dedup.length : Int) + titleMatchCount q it) 2 := by
  rw [scoreOf] at h
  by_cases hm : (matchedTokens q it).isEmpty
  · rw [if_pos hm] at h; exact absurd h (by simp)
  · rw [if_neg hm] at h
    have hr := (Option.some.inj h).symm
    subst hr
    exact ⟨fun hnil => hm (by rw [hnil]; rfl), rfl, rfl, rfl⟩

theorem mem_search {q : String} {catalog : List Item} {k : Int} {r : SearchResult}
    (h : r ∈ search_catalog q catalog k) :
    ∃ it ∈ catalog, scoreOf q it = some r := by
  rw [search_catalog] at h
  by_cases he : (tokenize q).isEmpty
  · rw [if_pos he] at h; exact absurd h (List.not_mem_nil r)
  · rw [if_neg he] at h
    have h2 : r ∈ List.insertionSort sortRel (scoredList q catalog) :=
      (pySlice_sublist _ _).subset h
    have h3 : r ∈ scoredList q catalog :=
      (List.perm_insertionSort sortRel _).subset h2
    rw [scoredList] at h3
    exact List.mem_filterMap.mp h3

theorem halfScore_eq (m t : Nat) :
    (mkRat (2 * (m : Int) + t) 2 : ℚ) = (m : ℚ) + (1 / 2) * (t : ℚ) := by
  rw [Rat.mkRat_eq_div]
  push_cast
  ring

theorem distinct_matched_card (q : String) (it : Item) :
    ((tokenize q).toFinset.filter (fun t => t ∈ hTokensList it)).card =
      (matchedTokens q it).dedup.length := by
  rw [matchedTokens, ← List.card_toFinset, List.toFinset_filter]
  congr 1
  simp

/-! ## Claims -/

/-- C6: for every result list and Constraints value, the output of
`filter_results` is an order-preserving subsequence (by identity) of the
input, and applying `filter_results` with an all-unset `Constraints`
returns the input list unchanged. -/
theorem C6_stable_subset (rs : List SearchResult) (c : Constraints) :
    (filter_results rs c).Sublist rs ∧
      filter_results rs { budget_max := none, colors := none, categories := none } = rs :=
  ⟨List.filter_sublist rs, List.filter_eq_self.mpr (fun _ _ => rfl)⟩

/-- C7: a query tokenizing to empty (the empty string included) makes
`search_catalog` return `[]` for every catalog (nothing is scanned), and
the core never raises on empty or unmatched queries: with no matching
item it likewise returns the empty collection.  (All embedded functions
are total, so no exception can arise at all.) -/
theorem C7_empty_behavior (q : String) (catalog : List Item) (k : Int) :
    (tokenize q = [] → search_catalog q catalog k = []) ∧
    tokenize "" = [] ∧
    ((∀ it ∈ catalog, matchedTokens q it = []) → search_catalog q catalog k = []) := by
  refine ⟨fun h => ?_, by decide, fun h => ?_⟩
  · rw [search_catalog, if_pos (by rw [h]; rfl)]
  · rw [search_catalog]
    by_cases he : (tokenize q).isEmpty
    · rw [if_pos he]
    · rw [if_neg he]
      have hs : scoredList q catalog = [] := by
        rw [scoredList, List.filterMap_eq_nil_iff]
        intro it hit
        rw [scoreOf, if_pos (by rw [h it hit]; rfl)]
      rw [hs]
      exact pySlice_nil k

/-- C7 witness: the empty query on a concrete catalog yields `[]`. -/
theorem C7_empty_behavior_witness : search_catalog "" [itemRed] 8 = [] :=
  (C7_empty_behavior "" [itemRed] 8).1 (by decide)

/-- C9: for every query, the `colors` and `categories` fields of the
parsed constraints are each either unset or a non-empty, duplicate-free
list sorted in (code-point) lexicographic order; never an empty
collection. -/
theorem C9_sorted_sets (q : String) :
    ((parse_constraints q).colors = none ∨
      ∃ l, (parse_constraints q).colors = some l ∧
        l ≠ [] ∧ l.Sorted strle ∧ l.Nodup) ∧
    ((parse_constraints q).categories = none ∨
      ∃ l, (parse_constraints q).categories = some l ∧
        l ≠ [] ∧ l.Sorted strle ∧ l.Nodup) := by
  rw [parse_constraints]
  constructor
  · by_cases h : (knownColors.filter (fun c => strContains (pyLower q) c)).isEmpty
    · left; simp only [h, if_true]
    · right
      exact ⟨sortedDedup (knownColors.filter (fun c => strContains (pyLower q) c)),
        by rw [if_neg h], sortedDedup_ne_nil (fun hnil => h (by rw [hnil]; rfl)),
        sortedDedup_sorted _, sortedDedup_nodup _⟩
  · by_cases h : ((((List.insertionSort keyLenGe categoryMap).filter
        (fun kv => strContains (pyLower q) kv.1)).map Prod.snd)).isEmpty
    · left; simp only [h, if_true]
    · right
      exact ⟨sortedDedup (((List.insertionSort keyLenGe categoryMap).filter
          (fun kv => strContains (pyLower q) kv.1)).map Prod.snd),
        by rw [if_neg h], sortedDedup_ne_nil (fun hnil => h (by rw [hnil]; rfl)),
        sortedDedup_sorted _, sortedDedup_nodup _⟩

/-- C10: whenever the colors constraint is set and non-empty, a result
whose item has no colors field at all (or an empty colors list) is never
kept by `filter_results`. -/
theorem C10_colorless_dropped (rs : List SearchResult) (c : Constraints)
    (cols : List String) (r : SearchResult)
    (hc : c.colors = some cols) (hne : cols ≠ [])
    (hr : r.item.colors = none ∨ r.item.colors = some []) :
    r ∉ filter_results rs c := by
  intro hmem
  rw [filter_results, List.mem_filter, passes, Bool.and_eq_true, Bool.and_eq_true] at hmem
  have hco := hmem.2.2
  cases cols with
  | nil => exact hne rfl
  | cons c0 cs =>
    have hcolors : r.item.colors.getD [] = [] := by
      rcases hr with h | h <;> rw [h] <;> rfl
    simp only [colorOk, hc, hcolors, List.map_nil] at hco
    obtain ⟨x, hx, -⟩ := of_decide_eq_true hco
    exact absurd hx (List.not_mem_nil x)

/-- C10 witness: a result with no colors field is dropped under a set,
non-empty colors constraint. -/
theorem C10_colorless_dropped_witness : rBare ∉ filter_results [rBare] cWit :=
  C10_colorless_dropped [rBare] cWit ["red"] rBare rfl (by decide) (Or.inl rfl)

/-- C8: in `parse_constraints`, when both budget regexes match somewhere
in the (lower-cased) query, the budget comes from the first pattern in
pattern-list order — `(under|below|less than) <number>` — regardless of
which phrase occurs earlier in the text; when neither matches,
`budget_max` is unset. -/
theorem C8_budget_precedence (q : String) :
    (∀ n1 n2 : Nat, searchPat1 (pyLower q).data = some n1 →
      searchPat2 (pyLower q).data = some n2 →
      (parse_constraints q).budget_max = some (n1 : ℚ)) ∧
    (searchPat1 (pyLower q).data = none → searchPat2 (pyLower q).data = none →
      (parse_constraints q).budget_max = none) := by
  constructor
  · intro n1 n2 h1 _
    rw [parse_constraints]
    simp only [parseBudget, h1]
  · intro h1 h2
    rw [parse_constraints]
    simp only [parseBudget, h1, h2]

/-- C8 witness: in `"100 max and under 50"` the phrase of the second pattern
occurs first in the text (`100 max`), yet the result is the first
first-pattern value `50`. -/
theorem C8_budget_precedence_witness :
    (parse_constraints "100 max and under 50").budget_max = some ((50 : Nat) : ℚ) :=
  (C8_budget_precedence "100 max and under 50").1 50 100 (by decide) (by decide)

/-- C4: any two results A before B in the `search_catalog` output satisfy
A.score > B.score, or equal scores and A.rating > B.rating (missing
rating read as 0), or equal scores and ratings and A.price ≤ B.price
(missing price read as the `10**9` sentinel): the output is sorted by
that relation, which is what "A precedes B if ..." describes. -/
theorem C4_sort_order (q : String) (catalog : List Item) (k : Int) :
    (search_catalog q catalog k).Pairwise (fun a b =>
      b.score < a.score ∨ (a.score = b.score ∧
        (ratingKey b.item < ratingKey a.item ∨
          (ratingKey a.item = ratingKey b.item ∧ priceKey a.item ≤ priceKey b.item)))) := by
  rw [search_catalog]
  by_cases he : (tokenize q).isEmpty
  · rw [if_pos he]; exact List.Pairwise.nil
  · rw [if_neg he]
    exact List.Pairwise.sublist (pySlice_sublist _ _)
      (List.sorted_insertionSort sortRel (scoredList q catalog))

/-- C2 counterexample: with `top_k = -1` (which is ≤ 0) on a two-item
catalog matching the query, the Python `results[:-1]` keeps one result, so
the returned list is neither empty nor of length at most `top_k`. -/
theorem C2_counterexample :
    ¬ ((((search_catalog "dress" [itemRed, itemBlue] (-1)).length : Int) ≤ -1) ∧
      ((-1 : Int) ≤ 0 → search_catalog "dress" [itemRed, itemBlue] (-1) = [])) := by
  decide

/-- C2 (amended): for every query, catalog and non-negative `top_k`, the
returned list has length at most `top_k`, and `top_k = 0` yields the
empty list.  (For negative `top_k` the Python slice `results[:top_k]`
instead drops the last `|top_k|` sorted results, which can be
non-empty.) -/
theorem C2_truncation (q : String) (catalog : List Item) (k : Int) (hk : 0 ≤ k) :
    ((search_catalog q catalog k).length : Int) ≤ k ∧
      (k = 0 → search_catalog q catalog k = []) := by
  rw [search_catalog]
  by_cases he : (tokenize q).isEmpty
  · rw [if_pos he]
    exact ⟨by simpa using hk, fun _ => rfl⟩
  · rw [if_neg he, pySlice, if_pos hk]
    constructor
    · have h1 : (List.take k.toNat (List.insertionSort sortRel (scoredList q catalog))).length
          ≤ k.toNat := by
        rw [List.length_take]
        exact min_le_left _ _
      calc ((List.take k.toNat (List.insertionSort sortRel (scoredList q catalog))).length : Int)
          ≤ (k.toNat : Int) := by exact_mod_cast h1
        _ = k := Int.toNat_of_nonneg hk
    · intro h0
      rw [h0]
      rfl

/-- C2 witness: at `top_k = 0` the result is empty and of length ≤ 0. -/
theorem C2_truncation_witness :
    ((search_catalog "dress" [itemRed] 0).length : Int) ≤ 0 ∧
      ((0 : Int) = 0 → search_catalog "dress" [itemRed] 0 = []) :=
  C2_truncation "dress" [itemRed] 0 (by decide)

/-- C5: every result `search_catalog` returns carries a non-empty,
lexicographically sorted, duplicate-free `matched_terms`, each of whose
elements is a token of the query that also occurs in the matching item
searchable token set; items with zero matched tokens are never
returned. -/
theorem C5_matched_terms (q : String) (catalog : List Item) (k : Int)
    (r : SearchResult) (h : r ∈ search_catalog q catalog k) :
    r.matched_terms ≠ [] ∧ r.matched_terms.Sorted strle ∧ r.matched_terms.Nodup ∧
      ∀ t ∈ r.matched_terms, t ∈ tokenize q ∧ t ∈ hTokensList r.item := by
  obtain ⟨it, -, hscore⟩ := mem_search h
  obtain ⟨hne, hitem, hterms, -⟩ := scoreOf_some hscore
  rw [hterms, hitem]
  refine ⟨sortedDedup_ne_nil hne, sortedDedup_sorted _, sortedDedup_nodup _, ?_⟩
  intro t ht
  have hmem : t ∈ matchedTokens q it := mem_sortedDedup.mp ht
  rw [matchedTokens, List.mem_filter] at hmem
  exact ⟨hmem.1, of_decide_eq_true hmem.2⟩

/-- C5 witness: the concrete result for `itemRed` under query `"dress"`
is in the output and satisfies all four properties. -/
theorem C5_matched_terms_witness :
    itemRedResult.matched_terms ≠ [] ∧ itemRedResult.matched_terms.Sorted strle ∧
      itemRedResult.matched_terms.Nodup ∧
      ∀ t ∈ itemRedResult.matched_terms,
        t ∈ tokenize "dress" ∧ t ∈ hTokensList itemRedResult.item :=
  C5_matched_terms "dress" [itemRed] 8 itemRedResult (by decide)

/-- C1 counterexample: for the query `"dress dress"` and `itemRed`
(title "Red Dress"), the intersection is non-empty, yet the assigned
score is 2 — `1 + 0.5 * 2`, the title term counted once per query-token
*occurrence* — while the claimed formula over distinct tokens gives
`1 + 0.5 * 1 = 1.5`. -/
theorem C1_counterexample :
    (∃ t ∈ tokenize "dress dress", t ∈ hTokensList itemRed) ∧
    ¬ ((scoreOf "dress dress" itemRed).map SearchResult.score =
        some (claimScore "dress dress" itemRed)) := by
  constructor
  · decide
  · have h2 : (scoreOf "dress dress" itemRed).map SearchResult.score = some 2 := by decide
    have c1 : (((tokenize "dress dress").toFinset.filter
        (fun t => t ∈ hTokensList itemRed)).card) = 1 := by decide
    have c2 : (((tokenize "dress dress").toFinset.filter
        (fun t => t ∈ titleTokens itemRed)).card) = 1 := by decide
    have h3 : claimScore "dress dress" itemRed = 3 / 2 := by
      rw [claimScore, c1, c2]; norm_num
    rw [h2, h3]
    intro habs
    have h4 := Option.some.inj habs
    norm_num at h4

/-- C1 (amended): for every query and item whose searchable token set
meets the query tokens, the assigned score is the count of *distinct*
query tokens found anywhere in the item plus 0.5 times the count, **with
multiplicity over the tokenized query**, of query-token occurrences found
in the title (the source sums over `q_tokens`, not over `set(matched)`,
for the title term). -/
theorem C1_score_formula (q : String) (it : Item)
    (h : ∃ t ∈ tokenize q, t ∈ hTokensList it) :
    (scoreOf q it).map SearchResult.score =
      some ((((tokenize q).toFinset.filter (fun t => t ∈ hTokensList it)).card : ℚ) +
        (1 / 2) * (titleMatchCount q it : ℚ)) := by
  obtain ⟨t, ht, hh⟩ := h
  have hmem : t ∈ matchedTokens q it := by
    rw [matchedTokens, List.mem_filter]
    exact ⟨ht, decide_eq_true hh⟩
  have hne : matchedTokens q it ≠ [] := List.ne_nil_of_mem hmem
  have hiem : ¬ (matchedTokens q it).isEmpty := by
    cases hmt : matchedTokens q it with
    | nil => exact absurd hmt hne
    | cons x xs => simp
  rw [scoreOf, if_neg hiem, Option.map_some']
  congr 1
  rw [halfScore_eq, distinct_matched_card]

/-- C1 witness: the amended formula evaluated at `"dress"`, `itemRed`. -/
theorem C1_score_formula_witness :
    (scoreOf "dress" itemRed).map SearchResult.score =
      some ((((tokenize "dress").toFinset.filter
          (fun t => t ∈ hTokensList itemRed)).card : ℚ) +
        (1 / 2) * (titleMatchCount "dress" itemRed : ℚ)) :=
  C1_score_formula "dress" itemRed (by decide)

/-- C3: for data-model-conforming inputs (set color/category constraints
are non-empty lists, items carry a price), `filter_results` keeps a
result iff it passes every set constraint: price not above the budget,
category case-sensitively equal to a requested one, and a case-insensitive
common color. -/
theorem C3_filter_iff (rs : List SearchResult) (c : Constraints)
    (hcat : c.categories ≠ some []) (hcol : c.colors ≠ some [])
    (hp : ∀ r ∈ rs, (r.item.price_usd).isSome) (r : SearchResult) :
    r ∈ filter_results rs c ↔ (r ∈ rs ∧ specPass c r) := by
  rw [filter_results, List.mem_filter]
  refine and_congr_right (fun hr => ?_)
  rw [passes, Bool.and_eq_true, Bool.and_eq_true, specPass]
  have hb : budgetOk c r.item = true ↔
      (∀ b p, c.budget_max = some b → r.item.price_usd = some p → p ≤ b) := by
    cases hbm : c.budget_max with
    | none => simp [budgetOk, hbm]
    | some b =>
      obtain ⟨p, hpp⟩ := Option.isSome_iff_exists.mp (hp r hr)
      simp only [budgetOk, hbm, priceKey, hpp, Option.getD_some, decide_eq_true_eq,
        not_lt, Option.some.injEq]
      constructor
      · rintro hpb b' p' rfl rfl
        exact hpb
      · intro hall
        exact hall b p rfl rfl
  have hcs : catOk c r.item = true ↔
      (∀ cats, c.categories = some cats → ∃ e ∈ cats, r.item.category = some e) := by
    cases hcm : c.categories with
    | none => simp [catOk, hcm]
    | some cats =>
      cases cats with
      | nil => exact absurd hcm hcat
      | cons c0 cs =>
        cases hitc : r.item.category with
        | none =>
          simp only [catOk, hcm, hitc, Option.some.injEq, forall_eq']
          constructor
          · intro habs
            exact Bool.noConfusion habs
          · rintro ⟨e, -, habs⟩
            exact Option.noConfusion habs
        | some cat =>
          simp only [catOk, hcm, hitc, decide_eq_true_eq, Option.some.injEq, forall_eq']
          constructor
          · intro hm
            exact ⟨cat, hm, rfl⟩
          · rintro ⟨e, he, rfl⟩
            exact he
  have hco : colorOk c r.item = true ↔
      (∀ cols, c.colors = some cols →
        ∃ x ∈ (r.item.colors.getD []).map pyLower, x ∈ cols.map pyLower) := by
    cases hcolm : c.colors with
    | none => simp [colorOk, hcolm]
    | some cols =>
      cases cols with
      | nil => exact absurd hcolm hcol
      | cons c0 cs =>
        simp only [colorOk, hcolm, decide_eq_true_eq, Option.some.injEq, forall_eq']
  rw [hb, hcs, hco]
  tauto

/-- C3 witness: a concrete result satisfying all three set constraints is
kept, and the equivalence holds at that instance. -/
theorem C3_filter_iff_witness :
    rRed ∈ filter_results [rRed] cWit ↔ (rRed ∈ [rRed] ∧ specPass cWit rRed) :=
  C3_filter_iff [rRed] cWit (by decide) (by decide) (by decide) rRed

end Shop
